import Mathlib

/-!
Shallow embedding of the bedrock-resource-restriction core
(lib/ResourceTokenizer.js, lib/restrictions.js, lib/ResourceRestriction.js and
the decision engine in the acquisitions module) in Lean 4, together with
theorems settling the frozen claims about the natural-language specification.

Modelling conventions:
* JavaScript numbers used as counts, millisecond timestamps and TTLs are
  modelled as `Int` (all arithmetic in the source stays integral).
* A JavaScript plain object used as a string-keyed dictionary is modelled as an
  insertion-ordered association list `List (String × α)`; `objGet`, `objSet`
  and `objDelete` mirror property read, property write (overwriting in place,
  appending new keys) and `delete`.
* The tokenizer oracle (`tokenizers.getCurrent` / `tokenizers.get` plus the
  HMAC) is modelled by a current key id `currentId : String` and a
  deterministic token function `tok : String → String → String` mapping a
  tokenizer id and an (acquirer-fixed) resource id to the tokenized id;
  `ResourceTokenizer` always queries its maps on resources of the request,
  where the forward map is exactly `tok`.
* Fallible code (the rotation branch of `_createNewTokenizedAcquisition`,
  which as written iterates a non-iterable plain object, and the excess-merge
  branch of `applyReleaseRequest`, which assigns a property on a primitive
  number) is modelled in `Except String`.
* The durable store is a value `Store`; the decision engine's read, conditional
  update and conditional delete become pure functions on it.  Within a single
  sequential call the optimistic `tokenized` precondition always matches, so
  the unbounded retry loop runs exactly one iteration; `checkOp`, `acquireOp`
  and `releaseOp` encode that single iteration.
-/

namespace RR

/-- One acquisition list entry `{count, requested}`. -/
structure Item where
  count : Int
  requested : Int
deriving Repr, DecidableEq

/-- An acquisition list: ordered `{count, requested}` items. -/
abbrev TokenList := List Item

/-- One `tokenized` group `{tokenizerId, resources}`; `resources` is the JS
object mapping tokenized resource id to acquisition list. -/
structure TokenGroup where
  tokenizerId : String
  resources : List (String × TokenList)
deriving Repr, DecidableEq

/-- The `acquisition` part of an acquisition record. `expires` is `Option`
because `_updateAcquisitionRecord` can store an undefined `expires`. -/
structure Acquisition where
  acquirerId : String
  tokenized : List TokenGroup
  expires : Option Int
  ttl : Int
deriving Repr, DecidableEq

/-- A full record; `hasMeta = false` marks the synthesized default record that
`_getAcquisitionRecord` builds for an unknown acquirer (`no meta set`). -/
structure AcquisitionRecord where
  hasMeta : Bool
  acquisition : Acquisition
deriving Repr, DecidableEq

/-- One request item; `latest` is only meaningful for release requests. -/
structure RequestItem where
  resource : String
  count : Int
  requested : Int
  latest : Bool := false
deriving Repr, DecidableEq

/-- JS object property read. -/
def objGet : List (String × α) → String → Option α
  | [], _ => none
  | (k, v) :: t, key => if k = key then some v else objGet t key

/-- JS object property write: overwrite in place, append when absent. -/
def objSet : List (String × α) → String → α → List (String × α)
  | [], key, v => [(key, v)]
  | (k, w) :: t, key, v =>
    if k = key then (k, v) :: t else (k, w) :: objSet t key v

/-- JS `delete obj[key]`. -/
def objDelete (m : List (String × α)) (key : String) : List (String × α) :=
  m.filter fun p => !(p.1 == key)

/-- Prune one acquisition list: keep items with `requested + ttl >= now`
(`_pruneTokenized`'s inner filter). -/
def pruneList (ttl now : Int) (l : TokenList) : TokenList :=
  l.filter fun e => now ≤ e.requested + ttl

/-- Prune one group: every key of `resources` is retained, with its list
filtered (the source assigns `entry.resources[key]` for every key). -/
def pruneGroup (ttl now : Int) (g : TokenGroup) : TokenGroup :=
  { tokenizerId := g.tokenizerId,
    resources := g.resources.map fun p => (p.1, pruneList ttl now p.2) }

/-- `_pruneTokenized`: a group is pushed exactly when its original `resources`
object has at least one key — the source's `empty` flag is set to `false`
inside the `for key in resources` loop regardless of whether the filtered
list is empty, so a group whose lists are all pruned away is still kept
(with keys mapping to empty lists). -/
def pruneTokenized (a : Acquisition) (now : Int) : List TokenGroup :=
  (a.tokenized.filter fun g => !g.resources.isEmpty).map (pruneGroup a.ttl now)

/-- The state of a `ResourceTokenizer` after `process` (the fields the later
methods read).  The forward/reverse token maps are recomputed on demand from
`tok` instead of being cached. -/
structure TokenizerState where
  acquirerId : String
  request : List RequestItem
  prunedTokenized : List TokenGroup
  pruneTime : Int
  rotate : Bool
  newTokenizerId : String
  previousAcquisitionTtl : Int
deriving Repr, DecidableEq

/-- The rotation decision of `process`, from the required tokenizer ids of
the pruned record: one id equal to the current key means no rotation; one
stale id rotates to the current key; with two ids the second (position 1) is
the write key and rotation proceeds.  (The empty case is unreachable:
`process` inserts a default group first.) -/
def rotationDecision (currentId : String) (ids : List String) :
    Bool × String :=
  match ids with
  | [t0] =>
    if t0 ≠ currentId then (true, currentId) else (false, currentId)
  | _ :: t1 :: _ => (true, t1)
  | [] => (false, currentId)

/-- `ResourceTokenizer.process`: record the previous TTL, prune the record,
fall back to a single empty group under the current tokenizer (resetting the
previous TTL) when nothing remains, then decide rotation and the write key
via `rotationDecision`. -/
def process (currentId acquirerId : String) (request : List RequestItem)
    (record : AcquisitionRecord) (now : Int) : TokenizerState :=
  let pruned := pruneTokenized record.acquisition now
  let pruned1 := if pruned.isEmpty then [⟨currentId, []⟩] else pruned
  let previousTtl1 := if pruned.isEmpty then 0 else record.acquisition.ttl
  let rd := rotationDecision currentId (pruned1.map fun g => g.tokenizerId)
  ⟨acquirerId, request, pruned1, now, rd.1, rd.2, previousTtl1⟩

/-- `getUntokenizedAcquisitionMap`: for each request resource and each pruned
group, look the resource's token up in that group; any found list (including
an empty one — an empty array is truthy in JS) is written into the map,
later groups overwriting earlier ones. -/
def getUntokenizedAcquisitionMap (tok : String → String → String)
    (st : TokenizerState) : List (String × TokenList) :=
  st.request.foldl
    (fun acq item =>
      st.prunedTokenized.foldl
        (fun acq g =>
          match objGet g.resources (tok g.tokenizerId item.resource) with
          | some list => objSet acq item.resource list
          | none => acq)
        acq)
    []

/-- `_createNewTokenizedAcquisition`.  Without rotation the single pruned
group is reused.  The rotation branch of the source, as written, first builds
`unconverted` by reading the (nonexistent) `tokenizedId` property and then
executes `for(const {tokenizerId, resources} of prunedTokenized[0])` —
iterating a plain object, which is not iterable, so the branch throws a
`TypeError` before converting anything (it would also call `.entries()` on a
plain object). -/
def createNewTokenizedAcquisition (st : TokenizerState) :
    Except String (List TokenGroup) :=
  if !st.rotate then
    match st.prunedTokenized with
    | g :: _ => .ok [g]
    | [] => .ok []
  else
    .error "TypeError: prunedTokenized[0] is not iterable"

/-- `_pruneRequest`: drop request items with `requested + ttl < now` (the
source also keeps items with no `requested`; acquire requests always carry
one). -/
def pruneRequest (request : List RequestItem) (now ttl : Int) :
    List RequestItem :=
  request.filter fun i => now ≤ i.requested + ttl

/-- Insert `{count, requested}` into a list kept in ascending `requested`
order: the source advances past strictly smaller entries and splices. -/
def insertSorted (l : TokenList) (it : Item) : TokenList :=
  match l with
  | [] => [it]
  | e :: t =>
    if e.requested < it.requested then e :: insertSorted t it else it :: e :: t

/-- Apply a function to the write entry (`newTokenized[1] || newTokenized[0]`)
in place. -/
def updateEntry (l : List TokenGroup) (f : TokenGroup → TokenGroup) :
    List TokenGroup :=
  match l with
  | [g] => [f g]
  | g0 :: g1 :: t => g0 :: f g1 :: t
  | [] => []

/-- The loop body of `applyAcquireRequest` step 4: token the resource under
the write key and insert the item into that token's list in `requested`
order. -/
def addToEntry (tok : String → String → String) (newTokenizerId : String)
    (entry : TokenGroup) (items : List RequestItem) : TokenGroup :=
  items.foldl
    (fun e item =>
      let tid := tok newTokenizerId item.resource
      let list := (objGet e.resources tid).getD []
      { e with resources :=
          objSet e.resources tid (insertSorted list ⟨item.count, item.requested⟩) })
    entry

/-- `_computeExpires`: fold `maxRequested = Math.max(requested,
maxRequested || 0)` over every item of every key of every group; `undefined`
(`none`) when no item was seen, else `maxRequested + ttl`. -/
def computeExpires (newTokenized : List TokenGroup) (ttl : Int) : Option Int :=
  let maxRequested :=
    newTokenized.foldl
      (fun acc g =>
        g.resources.foldl
          (fun acc p =>
            p.2.foldl (fun acc it => some (max it.requested (acc.getD 0))) acc)
          acc)
      (none : Option Int)
  maxRequested.map (· + ttl)

/-- Result shape of `applyAcquireRequest`. -/
structure AcquireResult where
  newTokenized : List TokenGroup
  expires : Option Int
  ttl : Int
deriving Repr, DecidableEq

/-- `applyAcquireRequest`: the new TTL is
`max(previousAcquisitionTtl, maxRestrictionTtl)`; the request is pruned with
the record's prune time and the new TTL; surviving items are inserted into
the write entry under the write key; `expires` is recomputed. -/
def applyAcquireRequest (tok : String → String → String) (st : TokenizerState)
    (maxRestrictionTtl : Int) : Except String AcquireResult :=
  let ttl := max st.previousAcquisitionTtl maxRestrictionTtl
  match createNewTokenizedAcquisition st with
  | .error e => .error e
  | .ok newTokenized0 =>
    let prunedRequest := pruneRequest st.request st.pruneTime ttl
    let newTokenized :=
      updateEntry newTokenized0 fun e =>
        addToEntry tok st.newTokenizerId e prunedRequest
    .ok ⟨newTokenized, computeExpires newTokenized ttl, ttl⟩

/-- The consume loop of `applyReleaseRequest`: drop entries whose count is
covered by `toRemove`, decrement the first entry it only partially covers,
keep the rest (entries with nonpositive count are still dropped by the
`toRemove >= e.count` test once `toRemove` reaches 0). Returns the new list
and the unconsumed remainder. -/
def consume : TokenList → Int → TokenList × Int
  | [], toRemove => ([], toRemove)
  | e :: t, toRemove =>
    if toRemove ≥ e.count then consume t (toRemove - e.count)
    else if toRemove > 0 then
      (Item.mk (e.count - toRemove) e.requested :: (consume t 0).1,
        (consume t 0).2)
    else (e :: (consume t 0).1, (consume t 0).2)

/-- The directed consume of `applyReleaseRequest`: with `latest` the list is
reversed (`list.slice().reverse()`), consumed from the front, and the
surviving entries reversed back into ascending order; without it the list is
consumed from the front directly. -/
def consumeDirected (latest : Bool) (l : TokenList) (count : Int) :
    TokenList × Int :=
  if latest then
    ((consume l.reverse count).1.reverse, (consume l.reverse count).2)
  else consume l count

/-- The per-item loop body of `applyReleaseRequest`.  The excess-merge branch
of the source reads a previously stored excess (a primitive number) and
executes `excess.count += toRemove`, which in strict mode (ES modules) throws
a `TypeError`; a stored excess is always positive, and a falsy `0` would take
the `set` branch. -/
def releaseItem (tok : String → String → String) (newTokenizerId : String)
    (s : TokenGroup × List (String × Int)) (item : RequestItem) :
    Except String (TokenGroup × List (String × Int)) :=
  let entry := s.1
  let excessMap := s.2
  let tid := tok newTokenizerId item.resource
  let list := (objGet entry.resources tid).getD []
  let cd := consumeDirected item.latest list item.count
  let newList := cd.1
  let toRemove := cd.2
  let entry1 :=
    if newList.isEmpty then
      { entry with resources := objDelete entry.resources tid }
    else
      { entry with resources := objSet entry.resources tid newList }
  if toRemove > 0 then
    match objGet excessMap item.resource with
    | some excess =>
      if excess ≠ 0 then
        .error "TypeError: Cannot create property count on a number"
      else .ok (entry1, objSet excessMap item.resource toRemove)
    | none => .ok (entry1, objSet excessMap item.resource toRemove)
  else .ok (entry1, excessMap)

/-- Result shape of `applyReleaseRequest`; `excessResources` keeps the
insertion-ordered `(resource, count)` entries of the source's `Map`. -/
structure ReleaseResult where
  newTokenized : List TokenGroup
  excessResources : List (String × Int)
  expires : Option Int
  ttl : Int
deriving Repr, DecidableEq

/-- `applyReleaseRequest`: walk the request consuming from the write entry,
reuse the previous TTL, recompute `expires`. -/
def applyReleaseRequest (tok : String → String → String)
    (st : TokenizerState) : Except String ReleaseResult :=
  match createNewTokenizedAcquisition st with
  | .error e => .error e
  | .ok newTokenized0 =>
    let entry0 :=
      match newTokenized0 with
      | [g] => g
      | _ :: g1 :: _ => g1
      | [] => ⟨"", []⟩
    match st.request.foldlM (releaseItem tok st.newTokenizerId) (entry0, []) with
    | .error e => .error e
    | .ok s =>
      let newTokenized :=
        match newTokenized0 with
        | [_] => [s.1]
        | g0 :: _ :: t => g0 :: s.1 :: t
        | [] => []
      let ttl := st.previousAcquisitionTtl
      .ok ⟨newTokenized, s.2, computeExpires newTokenized ttl, ttl⟩

/-- The action `_record` (and the release loop) takes on the new `tokenized`
section: the record is removed exactly when it is a single group whose
`resources` object has no keys (`Object.keys(...).length === 0`); otherwise a
conditional update is attempted. -/
inductive RecordAction where
  | remove
  | update
deriving Repr, DecidableEq

/-- The removal-versus-update decision shared by `_record` and `release`. -/
def recordDecision (newTokenized : List TokenGroup) : RecordAction :=
  match newTokenized with
  | [g] => if g.resources.isEmpty then .remove else .update
  | _ => .update

/-- The result a restriction method returns to `_check`
(`{authorized, excess, ttl?, trackedResources?}`; the two optional fields are
part of the documented policy contract). -/
structure RestrictionResult where
  authorized : Bool
  excess : Int
  ttl : Option Int
  trackedResources : Option (List String)
deriving Repr, DecidableEq

/-- JS `Set.add` on an insertion-ordered list of strings. -/
def setAdd (s : List String) (x : String) : List String :=
  if x ∈ s then s else s ++ [x]

/-- Aggregate of `_check`. -/
structure CheckAggregate where
  authorized : Bool
  excessResources : List (String × Int)
  untrackedResources : List String
  trackedResources : List String
  maxRestrictionTtl : Int
deriving Repr, DecidableEq

/-- The aggregation loop of `_check`, taking the matched restrictions as the
list of `(restriction.resource, result)` pairs in iteration order.  The JS
loop updates four independent accumulators, each from itself and the current
element only, so it is written as four folds:
* `authorized &&= result.authorized`;
* `trackedResources.add(restriction.resource)` — the result's
  `trackedResources` field is never read;
* on an unauthorized result, `excessResources[resource] :=
  max(existing ?? 0, result.excess)`;
* `maxRestrictionTtl = Math.max(0, result.ttl ?? acquisitionTtl)` — the
  running value is overwritten, not folded with `max`, so the last matched
  restriction wins. -/
def checkAggregate (request : List RequestItem) (acquisitionTtl : Int)
    (applied : List (String × RestrictionResult)) : CheckAggregate :=
  let authorized := applied.foldl (fun a p => a && p.2.authorized) true
  let tracked := applied.foldl (fun s p => setAdd s p.1) []
  let excess :=
    applied.foldl
      (fun m p =>
        if p.2.authorized then m
        else objSet m p.1 (max ((objGet m p.1).getD 0) p.2.excess))
      []
  let maxTtl :=
    applied.foldl (fun _ p => max 0 (p.2.ttl.getD acquisitionTtl)) 0
  { authorized := authorized,
    excessResources := excess,
    untrackedResources :=
      (request.map fun i => i.resource).filter fun r => !(tracked.contains r),
    trackedResources := tracked,
    maxRestrictionTtl := maxTtl }

/-- Result shape of a restriction method before the engine reads the optional
fields. -/
structure LimitResult where
  authorized : Bool
  excess : Int
  ttl : Int
deriving Repr, DecidableEq

/-- `_limitOverDuration`.  `window` is the parsed ISO-8601 duration in
milliseconds.  The start of the window is
`moment(now).subtract(duration).unix() * 1000`, i.e. `now − window` rounded
DOWN to whole seconds (`unix()` floors to seconds).  Stored acquisitions of
`restriction.resource` and request items for it with `requested ≥ start`
are totaled; `excess = max(0, total − limit)`; `ttl` is the window in
milliseconds. -/
def limitOverDuration (limit window now : Int) (resource : String)
    (acquired : List (String × TokenList)) (request : List RequestItem) :
    LimitResult :=
  let startTime := ((now - window).fdiv 1000) * 1000
  let t1 :=
    ((objGet acquired resource).getD []).foldl
      (fun tot e => if startTime ≤ e.requested then tot + e.count else tot) 0
  let total :=
    request.foldl
      (fun tot i =>
        if i.resource ≠ resource ∨ i.requested < startTime then tot
        else tot + i.count)
      t1
  let excess := max 0 (total - limit)
  ⟨excess == 0, excess, window⟩

/-- A stored restriction definition for the built-in `limitOverDuration`
method (`{id, zone, resource, method, methodOptions: {limit, duration}}`,
with the duration already parsed to milliseconds). -/
structure RestrictionDef where
  id : String
  zone : String
  resource : String
  limit : Int
  window : Int
deriving Repr, DecidableEq

/-- The two collections of the durable store. -/
structure Store where
  restrictions : List RestrictionDef
  acquisitions : List (String × Acquisition)
deriving Repr, DecidableEq

/-- `_getAcquisitionRecord`: read by acquirer id; synthesize a default record
(no meta, one empty group under the current tokenizer, `expires = now`,
`ttl = 0`) when absent. -/
def getAcquisitionRecord (store : Store) (currentId acquirerId : String)
    (now : Int) : AcquisitionRecord :=
  match objGet store.acquisitions acquirerId with
  | some a => ⟨true, a⟩
  | none => ⟨false, ⟨acquirerId, [⟨currentId, []⟩], some now, 0⟩⟩

/-- `matchRequest`: restrictions whose zone is among the caller's zones and
whose resource is named by the request. -/
def matchRequest (store : Store) (request : List RequestItem)
    (zones : List String) : List RestrictionDef :=
  store.restrictions.filter fun r =>
    zones.contains r.zone && (request.map fun i => i.resource).contains r.resource

/-- `ResourceRestriction.apply` for the built-in method: run
`_limitOverDuration` and wrap its result in the generic result shape (it
returns a `ttl` and no `trackedResources`). -/
def applyRestriction (now : Int) (acquired : List (String × TokenList))
    (request : List RequestItem) (r : RestrictionDef) : RestrictionResult :=
  let res := limitOverDuration r.limit r.window now r.resource acquired request
  ⟨res.authorized, res.excess, some res.ttl, none⟩

/-- The caller-supplied `acquirerId` as a JS value: a string, absent, or a
value of some other type. -/
inductive JsInput where
  | str (s : String)
  | missing
  | nonString
deriving Repr, DecidableEq

/-- The message `assert.string(acquirerId, 'acquirerId')` throws with. -/
def acquirerIdError : String := "acquirerId (string) is required"

/-- Public result of `check` and `acquire`. -/
structure CheckOutput where
  authorized : Bool
  excessResources : List (String × Int)
  untrackedResources : List String
deriving Repr, DecidableEq

/-- The full internal check pipeline shared by `check` and `acquire` (steps
1–3 of both): read the record, `process` it, build the untokenized
acquisition map, match restrictions, apply them, aggregate. -/
def runCheck (tok : String → String → String) (currentId : String) (now : Int)
    (store : Store) (acquirerId : String) (request : List RequestItem)
    (acquisitionTtl : Int) (zones : List String) :
    TokenizerState × AcquisitionRecord × CheckAggregate :=
  let record := getAcquisitionRecord store currentId acquirerId now
  let st := process currentId acquirerId request record now
  let acquired := getUntokenizedAcquisitionMap tok st
  let applied :=
    (matchRequest store request zones).map fun r =>
      (r.resource, applyRestriction now acquired request r)
  (st, record, checkAggregate request acquisitionTtl applied)

/-- `check`: validate `acquirerId` first (the validation error does not
depend on the store), run the internal check, and return only `authorized`,
`excessResources` and `untrackedResources`.  No write is performed; the
store comes back unchanged. -/
def checkOp (tok : String → String → String) (currentId : String) (now : Int)
    (store : Store) (acquirerId : JsInput) (request : List RequestItem)
    (acquisitionTtl : Int) (zones : List String) :
    Except String (CheckOutput × Store) :=
  match acquirerId with
  | .str aid =>
    let r := runCheck tok currentId now store aid request acquisitionTtl zones
    let agg := r.2.2
    .ok (⟨agg.authorized, agg.excessResources, agg.untrackedResources⟩, store)
  | _ => .error acquirerIdError

/-- Conditional update / upsert of an acquisition record
(`_updateAcquisitionRecord`): replace the record's `tokenized`, `expires` and
`ttl`; insert when `upsert` and the record is absent. -/
def storeUpdateAcquisition (store : Store) (acquirerId : String)
    (newTokenized : List TokenGroup) (expires : Option Int) (ttl : Int)
    (upsert : Bool) : Store :=
  match objGet store.acquisitions acquirerId with
  | some a =>
    { store with
      acquisitions :=
        objSet store.acquisitions acquirerId
          { a with tokenized := newTokenized, expires := expires, ttl := ttl } }
  | none =>
    if upsert then
      { store with
        acquisitions :=
          objSet store.acquisitions acquirerId
            ⟨acquirerId, newTokenized, expires, ttl⟩ }
    else store

/-- Conditional delete (`_removeAcquisitionRecord`); skipped entirely when
the in-memory record was the synthesized default. -/
def storeRemoveAcquisition (store : Store) (acquirerId : String) : Store :=
  { store with acquisitions := objDelete store.acquisitions acquirerId }

/-- `acquire`, one iteration of the retry loop (in a sequential execution the
optimistic `tokenized` precondition always matches, so the loop runs once):
validate, run the internal check, return unchanged when unauthorized without
force or when nothing is tracked, otherwise apply the acquire request and
remove or upsert the record as `_record` decides. -/
def acquireOp (tok : String → String → String) (currentId : String)
    (now : Int) (store : Store) (acquirerId : JsInput)
    (request : List RequestItem) (acquisitionTtl : Int) (zones : List String)
    (forceAcquisition : Bool) : Except String (CheckOutput × Store) :=
  match acquirerId with
  | .str aid =>
    let r := runCheck tok currentId now store aid request acquisitionTtl zones
    let st := r.1
    let record := r.2.1
    let agg := r.2.2
    let out : CheckOutput :=
      ⟨agg.authorized, agg.excessResources, agg.untrackedResources⟩
    if !agg.authorized && !forceAcquisition then .ok (out, store)
    else if agg.trackedResources.isEmpty then .ok (out, store)
    else
      match applyAcquireRequest tok st agg.maxRestrictionTtl with
      | .error e => .error e
      | .ok res =>
        match recordDecision res.newTokenized with
        | .remove =>
          .ok (out, if record.hasMeta then storeRemoveAcquisition store aid
                    else store)
        | .update =>
          .ok (out,
            storeUpdateAcquisition store aid res.newTokenized res.expires
              res.ttl true)
  | _ => .error acquirerIdError

/-- Public result of `release`. -/
structure ReleaseOutput where
  authorized : Bool
  excessResources : List (String × Int)
  expires : Option Int
deriving Repr, DecidableEq

/-- `release`, one iteration of the retry loop: validate, read and `process`
the record, apply the release request, then remove the record when the
result is a single keyless group (skipping the delete for a synthesized
default record) or conditionally update without upsert. -/
def releaseOp (tok : String → String → String) (currentId : String)
    (now : Int) (store : Store) (acquirerId : JsInput)
    (request : List RequestItem) : Except String (ReleaseOutput × Store) :=
  match acquirerId with
  | .str aid =>
    let record := getAcquisitionRecord store currentId aid now
    let st := process currentId aid request record now
    match applyReleaseRequest tok st with
    | .error e => .error e
    | .ok res =>
      match recordDecision res.newTokenized with
      | .remove =>
        .ok (⟨true, res.excessResources, res.expires⟩,
          if record.hasMeta then storeRemoveAcquisition store aid else store)
      | .update =>
        .ok (⟨true, res.excessResources, res.expires⟩,
          storeUpdateAcquisition store aid res.newTokenized res.expires
            res.ttl false)
  | _ => .error acquirerIdError

/-! ### Specification-side definitions used to state the claims -/

/-- Modelled from the claim's words (not the source), for comparison with
`limitOverDuration`: identical computation except that the window start is
`now − window` exactly, with no rounding. -/
def limitOverDurationClaimed (limit window now : Int) (resource : String)
    (acquired : List (String × TokenList)) (request : List RequestItem) :
    LimitResult :=
  let startTime := now - window
  let t1 :=
    ((objGet acquired resource).getD []).foldl
      (fun tot e => if startTime ≤ e.requested then tot + e.count else tot) 0
  let total :=
    request.foldl
      (fun tot i =>
        if i.resource ≠ resource ∨ i.requested < startTime then tot
        else tot + i.count)
      t1
  let excess := max 0 (total - limit)
  ⟨excess == 0, excess, window⟩

/-- All acquisition items of a `tokenized` section, in iteration order. -/
def allItems (l : List TokenGroup) : List Item :=
  (l.map fun g => (g.resources.map fun p => p.2).flatten).flatten

/-- The mathematical maximum of the `requested` values of a `tokenized`
section (`none` when there is no item), with no `|| 0` coercion. -/
def specMaxRequested (l : List TokenGroup) : Option Int :=
  (allItems l).foldl
    (fun acc it => some (max (acc.getD it.requested) it.requested)) none

/-- Total count held by an acquisition list. -/
def sumCounts (l : TokenList) : Int := (l.map Item.count).sum

/-- All counts of an acquisition list are positive. -/
def PosCounts (l : TokenList) : Prop := ∀ it ∈ l, 0 < it.count

/-- Sorted by `requested` ascending. -/
def SortedAsc (l : TokenList) : Prop :=
  l.Pairwise fun a b => a.requested ≤ b.requested

instance (l : TokenList) : Decidable (PosCounts l) :=
  inferInstanceAs (Decidable (∀ it ∈ l, 0 < it.count))

instance (l : TokenList) : Decidable (SortedAsc l) :=
  inferInstanceAs
    (Decidable (l.Pairwise fun a b : Item => a.requested ≤ b.requested))

/-- `newL` arises from `L` by deleting a prefix and possibly decrementing the
count of the first surviving item: the shape of consuming from the
earliest-requested end. -/
def TailShape (newL L : TokenList) : Prop :=
  ∃ n, newL = L.drop n ∨
    ∃ it rest c, L.drop n = it :: rest ∧ 0 < c ∧ c < it.count ∧
      newL = Item.mk c it.requested :: rest

/-- What the release claim asserts of one request item processed against a
write entry and an excess map: counts are consumed from the earliest (or,
with `latest`, the newest) stored acquisitions, a fully consumed item is
dropped and a partially consumed one is decremented and kept, the shortfall
is recorded for the resource, an emptied list has its token key deleted, no
other key changes, and the surviving list is still sorted ascending with
positive counts. -/
def releaseItemSpec (tok : String → String → String) (newTokenizerId : String)
    (entry : TokenGroup) (excessMap : List (String × Int))
    (item : RequestItem) : Prop :=
  let tid := tok newTokenizerId item.resource
  let list := (objGet entry.resources tid).getD []
  let newList := (consumeDirected item.latest list item.count).1
  let shortfall := max 0 (item.count - sumCounts list)
  ∃ entry1 excess1,
    releaseItem tok newTokenizerId (entry, excessMap) item =
      .ok (entry1, excess1) ∧
    excess1 = (if 0 < shortfall then objSet excessMap item.resource shortfall
               else excessMap) ∧
    entry1.tokenizerId = entry.tokenizerId ∧
    objGet entry1.resources tid =
      (if newList.isEmpty then none else some newList) ∧
    (∀ k, k ≠ tid → objGet entry1.resources k = objGet entry.resources k) ∧
    sumCounts newList = sumCounts list - (item.count - shortfall) ∧
    PosCounts newList ∧
    SortedAsc newList ∧
    (item.latest = false → TailShape newList list) ∧
    (item.latest = true → TailShape newList.reverse list.reverse)

/-! ### Concrete fixtures used by counterexamples and witnesses -/

/-- A concrete deterministic token function standing in for the keyed HMAC. -/
def tokConcat : String → String → String := fun k r => k ++ ":" ++ r

/-- A record holding one acquisition (count 1, requested 0) under key `k1`
with `ttl = 5`; at `now = 10` the item is expired. -/
def expiredRecord : AcquisitionRecord :=
  ⟨true, ⟨"a", [⟨"k1", [("t", [⟨1, 0⟩])]⟩], some 0, 5⟩⟩

/-- A record holding one acquisition under key `k1`; when the current key is
`k2` a rotation is required. -/
def staleKeyRecord : AcquisitionRecord :=
  ⟨true, ⟨"a", [⟨"k1", [("t1", [⟨1, 5⟩])]⟩], some 100, 10000⟩⟩

/-- A synthesized default record (no meta, one empty group). -/
def emptyRecord : AcquisitionRecord := ⟨false, ⟨"a", [⟨"k1", []⟩], some 0, 0⟩⟩

/-- A release request asking twice for 5 units of the same resource. -/
def doubleReleaseRequest : List RequestItem :=
  [⟨"R", 5, 0, false⟩, ⟨"R", 5, 0, false⟩]

/-- Fixture for the C6 witness: one live acquisition, `ttl = 5`, `now = 3`. -/
def liveRecord : AcquisitionRecord :=
  ⟨true, ⟨"a", [⟨"k1", [("t", [⟨1, 0⟩])]⟩], some 5, 5⟩⟩

/-- Fixture for the C6 witness: the request of one item at time 2. -/
def liveRequest : List RequestItem := [⟨"R", 1, 2, false⟩]

/-- Fixture for the C6 witness: the acquire result produced from `liveRecord`
with `maxRestrictionTtl = 7` (new ttl `max 5 7 = 7`, expires `2 + 7 = 9`). -/
def liveAcquireResult : AcquireResult :=
  ⟨[⟨"k1", [("t", [⟨1, 0⟩]), ("k1:R", [⟨1, 2⟩])]⟩], some 9, 7⟩

/-- The empty store. -/
def emptyStore : Store := ⟨[], []⟩

/-- A token function that maps every resource to itself (fixture for the C8
witness, where the token of `"t"` is `"t"`). -/
def tokId : String → String → String := fun _ r => r

/-- Fixture for the C8 witness: a write entry holding two acquisitions of one
token, counts 2 and 3, requested at 1 and 5. -/
def releaseEntry : TokenGroup := ⟨"k1", [("t", [⟨2, 1⟩, ⟨3, 5⟩])]⟩

/-- Fixture for the C8 witness: release 4 units of the resource whose token
is `"t"`, earliest first. -/
def releaseRequestItem : RequestItem := ⟨"t", 4, 0, false⟩

/-! ### Helper lemmas -/

theorem objGet_objSet_self (m : List (String × α)) (k : String) (v : α) :
    objGet (objSet m k v) k = some v := by
  induction m with
  | nil => simp [objGet, objSet]
  | cons p t ih =>
    by_cases h : p.1 = k
    · simp [objGet, objSet, h]
    · simp [objGet, objSet, h, ih]

theorem objGet_objSet_ne (m : List (String × α)) (k k' : String) (v : α)
    (h : k' ≠ k) : objGet (objSet m k v) k' = objGet m k' := by
  induction m with
  | nil => simp [objGet, objSet, Ne.symm h]
  | cons p t ih =>
    obtain ⟨pk, pv⟩ := p
    by_cases hp : pk = k
    · rw [objSet, if_pos hp, objGet, objGet]
      have hne : ¬pk = k' := by rw [hp]; exact Ne.symm h
      rw [if_neg hne, if_neg hne]
    · rw [objSet, if_neg hp, objGet, objGet, ih]

theorem objGet_objDelete_self (m : List (String × α)) (k : String) :
    objGet (objDelete m k) k = none := by
  induction m with
  | nil => rfl
  | cons p t ih =>
    obtain ⟨pk, pv⟩ := p
    by_cases h : pk = k
    · simpa [objDelete, List.filter_cons, h] using ih
    · simp only [objDelete, List.filter_cons] at ih ⊢
      rw [show (!(pk == k)) = true by simp [h]]
      simp only [if_true, objGet]
      rw [if_neg h]
      exact ih

theorem objGet_objDelete_ne (m : List (String × α)) (k k' : String)
    (h : k' ≠ k) : objGet (objDelete m k) k' = objGet m k' := by
  induction m with
  | nil => rfl
  | cons p t ih =>
    obtain ⟨pk, pv⟩ := p
    by_cases hp : pk = k
    · have hne : ¬pk = k' := by rw [hp]; exact Ne.symm h
      simp only [objDelete, List.filter_cons] at ih ⊢
      rw [show (!(pk == k)) = false by simp [hp]]
      simp only [Bool.false_eq_true, if_false, objGet]
      rw [if_neg hne]
      exact ih
    · simp only [objDelete, List.filter_cons] at ih ⊢
      rw [show (!(pk == k)) = true by simp [hp]]
      simp only [if_true, objGet]
      by_cases hp2 : pk = k'
      · rw [if_pos hp2, if_pos hp2]
      · rw [if_neg hp2, if_neg hp2]
        exact ih

theorem mem_foldl_setAdd (l : List (String × RestrictionResult))
    (s : List String) (x : String) :
    (x ∈ l.foldl (fun s p => setAdd s p.1) s) ↔
      x ∈ s ∨ x ∈ l.map Prod.fst := by
  induction l generalizing s with
  | nil => simp
  | cons p t ih =>
    rw [List.foldl_cons, ih]
    unfold setAdd
    by_cases h : p.1 ∈ s
    · simp only [if_pos h, List.map_cons, List.mem_cons]
      constructor
      · rintro (hx | hx)
        · exact Or.inl hx
        · exact Or.inr (Or.inr hx)
      · rintro (hx | rfl | hx)
        · exact Or.inl hx
        · exact Or.inl h
        · exact Or.inr hx
    · simp only [if_neg h, List.mem_append, List.mem_singleton, List.map_cons,
        List.mem_cons]
      tauto

theorem sumCounts_cons (e : Item) (t : TokenList) :
    sumCounts (e :: t) = e.count + sumCounts t := by
  simp [sumCounts]

theorem sumCounts_nonneg (l : TokenList) (h : PosCounts l) : 0 ≤ sumCounts l := by
  induction l with
  | nil => simp [sumCounts]
  | cons e t ih =>
    have he : 0 < e.count := h e (List.mem_cons_self ..)
    have ht : PosCounts t := fun it hit => h it (List.mem_cons_of_mem _ hit)
    rw [sumCounts_cons]
    have := ih ht
    omega

theorem sumCounts_reverse (l : TokenList) :
    sumCounts l.reverse = sumCounts l := by
  simp [sumCounts, List.sum_reverse]

theorem consume_cons (e : Item) (t : TokenList) (r : Int) :
    consume (e :: t) r =
      if r ≥ e.count then consume t (r - e.count)
      else if r > 0 then
        (Item.mk (e.count - r) e.requested :: (consume t 0).1, (consume t 0).2)
      else (e :: (consume t 0).1, (consume t 0).2) := by
  rw [consume]

theorem consume_zero (l : TokenList) (h : PosCounts l) : consume l 0 = (l, 0) := by
  induction l with
  | nil => rfl
  | cons e t ih =>
    have he : 0 < e.count := h e (List.mem_cons_self ..)
    have ht : PosCounts t := fun it hit => h it (List.mem_cons_of_mem _ hit)
    rw [consume]
    rw [if_neg (by omega), if_neg (by omega)]
    simp [ih ht]

theorem consume_rem (l : TokenList) (r : Int) (hr : 0 ≤ r) (h : PosCounts l) :
    (consume l r).2 = max 0 (r - sumCounts l) := by
  induction l generalizing r with
  | nil =>
    simp only [consume, sumCounts, List.map_nil, List.sum_nil]
    omega
  | cons e t ih =>
    have he : 0 < e.count := h e (List.mem_cons_self ..)
    have ht : PosCounts t := fun it hit => h it (List.mem_cons_of_mem _ hit)
    have hts : 0 ≤ sumCounts t := sumCounts_nonneg t ht
    rw [consume_cons, sumCounts_cons]
    by_cases h1 : r ≥ e.count
    · rw [if_pos h1, ih (r - e.count) (by omega) ht]
      omega
    · rw [if_neg h1]
      by_cases h2 : r > 0
      · rw [if_pos h2]
        simp only [consume_zero t ht]
        omega
      · rw [if_neg h2]
        simp only [consume_zero t ht]
        omega

theorem consume_sum (l : TokenList) (r : Int) (hr : 0 ≤ r) (h : PosCounts l) :
    sumCounts (consume l r).1 = sumCounts l - (r - (consume l r).2) := by
  induction l generalizing r with
  | nil => simp [consume]
  | cons e t ih =>
    have he : 0 < e.count := h e (List.mem_cons_self ..)
    have ht : PosCounts t := fun it hit => h it (List.mem_cons_of_mem _ hit)
    rw [consume_cons]
    by_cases h1 : r ≥ e.count
    · rw [if_pos h1]
      have h2 := ih (r - e.count) (by omega) ht
      rw [sumCounts_cons, h2]
      omega
    · rw [if_neg h1]
      by_cases h2 : r > 0
      · rw [if_pos h2]
        simp only [consume_zero t ht, sumCounts_cons]
        omega
      · rw [if_neg h2]
        simp only [consume_zero t ht, sumCounts_cons]
        omega

theorem consume_shape (l : TokenList) (r : Int) (hr : 0 ≤ r) (h : PosCounts l) :
    TailShape (consume l r).1 l := by
  induction l generalizing r with
  | nil => exact ⟨0, Or.inl (by simp [consume])⟩
  | cons e t ih =>
    have he : 0 < e.count := h e (List.mem_cons_self ..)
    have ht : PosCounts t := fun it hit => h it (List.mem_cons_of_mem _ hit)
    by_cases h1 : r ≥ e.count
    · obtain ⟨n, hn⟩ := ih (r - e.count) (by omega) ht
      refine ⟨n + 1, ?_⟩
      rw [consume_cons, if_pos h1]
      simpa using hn
    · by_cases h2 : r > 0
      · refine ⟨0, Or.inr ⟨e, t, e.count - r, by simp, by omega, by omega, ?_⟩⟩
        rw [consume_cons, if_neg h1, if_pos h2]
        simp [consume_zero t ht]
      · have hr0 : r = 0 := by omega
        subst hr0
        exact ⟨0, Or.inl (by simp [consume_zero (e :: t) h])⟩

theorem consume_pos (l : TokenList) (r : Int) (hr : 0 ≤ r) (h : PosCounts l) :
    PosCounts (consume l r).1 := by
  obtain ⟨n, hsh⟩ := consume_shape l r hr h
  rcases hsh with heq | ⟨it, rest, c, hdrop, hc, hlt, heq⟩
  · rw [heq]
    exact fun x hx => h x (List.mem_of_mem_drop hx)
  · rw [heq]
    intro x hx
    rcases List.mem_cons.1 hx with rfl | hx
    · exact hc
    · exact h x (List.mem_of_mem_drop (by rw [hdrop]; exact List.mem_cons_of_mem _ hx))

theorem consume_pairwise (R : Int → Int → Prop) (l : TokenList) (r : Int)
    (hr : 0 ≤ r) (h : PosCounts l)
    (hp : l.Pairwise fun a b => R a.requested b.requested) :
    (consume l r).1.Pairwise fun a b => R a.requested b.requested := by
  obtain ⟨n, hsh⟩ := consume_shape l r hr h
  have hdropP : (l.drop n).Pairwise fun a b => R a.requested b.requested :=
    hp.sublist (List.drop_sublist ..)
  rcases hsh with heq | ⟨it, rest, c, hdrop, hc, hlt, heq⟩
  · rw [heq]; exact hdropP
  · rw [heq]
    rw [hdrop, List.pairwise_cons] at hdropP
    exact List.pairwise_cons.2 ⟨fun b hb => hdropP.1 b hb, hdropP.2⟩

theorem consume_nonneg_rem (l : TokenList) (r : Int) (hr : 0 ≤ r)
    (h : PosCounts l) : 0 ≤ (consume l r).2 := by
  rw [consume_rem l r hr h]
  omega

theorem posCounts_reverse (l : TokenList) (h : PosCounts l) :
    PosCounts l.reverse :=
  fun it hit => h it (List.mem_reverse.1 hit)

theorem consumeDirected_rem (latest : Bool) (l : TokenList) (count : Int)
    (hc : 0 ≤ count) (hpos : PosCounts l) :
    (consumeDirected latest l count).2 = max 0 (count - sumCounts l) := by
  cases latest with
  | false => exact consume_rem l count hc hpos
  | true =>
    show (consume l.reverse count).2 = _
    rw [consume_rem l.reverse count hc (posCounts_reverse l hpos),
      sumCounts_reverse]

theorem consumeDirected_sum (latest : Bool) (l : TokenList) (count : Int)
    (hc : 0 ≤ count) (hpos : PosCounts l) :
    sumCounts (consumeDirected latest l count).1 =
      sumCounts l - (count - (consumeDirected latest l count).2) := by
  cases latest with
  | false => exact consume_sum l count hc hpos
  | true =>
    show sumCounts (consume l.reverse count).1.reverse =
      sumCounts l - (count - (consume l.reverse count).2)
    rw [sumCounts_reverse,
      consume_sum l.reverse count hc (posCounts_reverse l hpos),
      sumCounts_reverse]

theorem consumeDirected_pos (latest : Bool) (l : TokenList) (count : Int)
    (hc : 0 ≤ count) (hpos : PosCounts l) :
    PosCounts (consumeDirected latest l count).1 := by
  cases latest with
  | false => exact consume_pos l count hc hpos
  | true =>
    show PosCounts (consume l.reverse count).1.reverse
    exact posCounts_reverse _
      (consume_pos l.reverse count hc (posCounts_reverse l hpos))

theorem consumeDirected_sorted (latest : Bool) (l : TokenList) (count : Int)
    (hc : 0 ≤ count) (hpos : PosCounts l) (hsort : SortedAsc l) :
    SortedAsc (consumeDirected latest l count).1 := by
  cases latest with
  | false => exact consume_pairwise (· ≤ ·) l count hc hpos hsort
  | true =>
    show SortedAsc (consume l.reverse count).1.reverse
    have hrev : l.reverse.Pairwise fun a b => b.requested ≤ a.requested :=
      List.pairwise_reverse.2 hsort
    have hcons :=
      consume_pairwise (fun x y => y ≤ x) l.reverse count hc
        (posCounts_reverse l hpos) hrev
    exact List.pairwise_reverse.2 hcons

theorem consumeDirected_shape (latest : Bool) (l : TokenList) (count : Int)
    (hc : 0 ≤ count) (hpos : PosCounts l) :
    (latest = false → TailShape (consumeDirected latest l count).1 l) ∧
    (latest = true →
      TailShape (consumeDirected latest l count).1.reverse l.reverse) := by
  cases latest with
  | false =>
    refine ⟨fun _ => ?_, fun h => Bool.noConfusion h⟩
    exact consume_shape l count hc hpos
  | true =>
    refine ⟨fun h => Bool.noConfusion h, fun _ => ?_⟩
    show TailShape (consume l.reverse count).1.reverse.reverse l.reverse
    rw [List.reverse_reverse]
    exact consume_shape l.reverse count hc (posCounts_reverse l hpos)

theorem foldl_add_ite (p : α → Prop) [DecidablePred p] (f : α → Int)
    (l : List α) (a : Int) :
    l.foldl (fun t x => if p x then t + f x else t) a =
      a + ((l.filter fun x => decide (p x)).map f).sum := by
  induction l generalizing a with
  | nil => simp
  | cons x t ih =>
    by_cases h : p x
    · simp only [List.foldl_cons, if_pos h, ih, List.filter_cons,
        decide_eq_true_eq, List.map_cons, List.sum_cons]
      ring
    · simp only [List.foldl_cons, if_neg h, ih, List.filter_cons,
        decide_eq_true_eq]

theorem foldl_add_ite_not (p : α → Prop) [DecidablePred p] (f : α → Int)
    (l : List α) (a : Int) :
    l.foldl (fun t x => if p x then t else t + f x) a =
      a + ((l.filter fun x => decide (¬p x)).map f).sum := by
  induction l generalizing a with
  | nil => simp
  | cons x t ih =>
    simp only [List.foldl_cons, List.filter_cons]
    by_cases h : p x
    · rw [if_pos h, ih, if_neg (show ¬decide (¬p x) = true by simp [h])]
    · rw [if_neg h, ih, if_pos (show decide (¬p x) = true by simp [h])]
      simp only [List.map_cons, List.sum_cons]
      ring

theorem process_previousTtl (currentId acquirerId : String)
    (request : List RequestItem) (record : AcquisitionRecord) (now : Int) :
    (process currentId acquirerId request record now).previousAcquisitionTtl =
      if (pruneTokenized record.acquisition now).isEmpty then 0
      else record.acquisition.ttl := rfl

theorem process_prunedTokenized (currentId acquirerId : String)
    (request : List RequestItem) (record : AcquisitionRecord) (now : Int) :
    (process currentId acquirerId request record now).prunedTokenized =
      if (pruneTokenized record.acquisition now).isEmpty
      then [⟨currentId, []⟩]
      else pruneTokenized record.acquisition now := rfl

theorem process_request (currentId acquirerId : String)
    (request : List RequestItem) (record : AcquisitionRecord) (now : Int) :
    (process currentId acquirerId request record now).request = request := rfl

theorem process_pruneTime (currentId acquirerId : String)
    (request : List RequestItem) (record : AcquisitionRecord) (now : Int) :
    (process currentId acquirerId request record now).pruneTime = now := rfl

theorem filter_map_isEmpty (f : TokenGroup → TokenGroup)
    (l : List TokenGroup) :
    ((l.filter fun g => !g.resources.isEmpty).map f).isEmpty =
      l.all fun g => g.resources.isEmpty := by
  induction l with
  | nil => rfl
  | cons g t ih =>
    by_cases h : g.resources.isEmpty
    · simp only [List.filter_cons, List.all_cons, h]
      simpa using ih
    · have h0 : g.resources.isEmpty = false := by
        simpa using h
      simp [List.filter_cons, List.all_cons, h0]

theorem pruneTokenized_isEmpty_eq (a : Acquisition) (now : Int) :
    (pruneTokenized a now).isEmpty =
      a.tokenized.all fun g => g.resources.isEmpty := by
  unfold pruneTokenized
  exact filter_map_isEmpty _ _

theorem pruneTokenized_bound (a : Acquisition) (now : Int) :
    ((pruneTokenized a now).all fun g => g.resources.all fun p =>
      p.2.all fun it => decide (now ≤ it.requested + a.ttl)) = true := by
  simp only [pruneTokenized, List.all_eq_true, List.mem_map, List.mem_filter,
    decide_eq_true_eq]
  rintro g ⟨g0, ⟨hg0, hne⟩, rfl⟩ p hp it hit
  simp only [pruneGroup, List.mem_map] at hp
  obtain ⟨p0, hp0, rfl⟩ := hp
  simp only [pruneList, List.mem_filter, decide_eq_true_eq] at hit
  exact hit.2

theorem applyAcquireRequest_ok (tok : String → String → String)
    (st : TokenizerState) (mrt : Int) (res : AcquireResult)
    (h : applyAcquireRequest tok st mrt = .ok res) :
    res.ttl = max st.previousAcquisitionTtl mrt ∧
    res.expires = computeExpires res.newTokenized res.ttl := by
  unfold applyAcquireRequest at h
  cases hc : createNewTokenizedAcquisition st with
  | error e =>
    rw [hc] at h
    exact Except.noConfusion h
  | ok nt0 =>
    rw [hc] at h
    injection h with h1
    subst h1
    exact ⟨rfl, rfl⟩

theorem applyReleaseRequest_ok (tok : String → String → String)
    (st : TokenizerState) (res : ReleaseResult)
    (h : applyReleaseRequest tok st = .ok res) :
    res.ttl = st.previousAcquisitionTtl ∧
    res.expires = computeExpires res.newTokenized res.ttl := by
  unfold applyReleaseRequest at h
  cases hc : createNewTokenizedAcquisition st with
  | error e =>
    rw [hc] at h
    exact Except.noConfusion h
  | ok nt0 =>
    rw [hc] at h
    dsimp only at h
    split at h
    · exact Except.noConfusion h
    · injection h with h1
      subst h1
      exact ⟨rfl, rfl⟩

theorem computeExpires_eq_fold (l : List TokenGroup) (ttl : Int) :
    computeExpires l ttl =
      ((allItems l).foldl
        (fun acc it => some (max it.requested (acc.getD 0))) none).map
        (· + ttl) := by
  unfold computeExpires allItems
  simp only [List.foldl_flatten, List.foldl_map]

theorem fold_js_aux (items : List Item) (m : Int) (hm : 0 ≤ m) :
    items.foldl (fun acc it => some (max it.requested (acc.getD 0))) (some m) =
      items.foldl
        (fun acc it => some (max (acc.getD it.requested) it.requested))
        (some m) := by
  induction items generalizing m with
  | nil => rfl
  | cons e t ih =>
    simp only [List.foldl_cons, Option.getD_some]
    rw [max_comm e.requested m]
    exact ih (max m e.requested) (le_max_of_le_left hm)

theorem fold_js_eq_spec (items : List Item)
    (h : ∀ it ∈ items, 0 ≤ it.requested) :
    items.foldl (fun acc it => some (max it.requested (acc.getD 0))) none =
      items.foldl
        (fun acc it => some (max (acc.getD it.requested) it.requested))
        none := by
  cases items with
  | nil => rfl
  | cons e t =>
    have he : 0 ≤ e.requested := h e (List.mem_cons_self ..)
    simp only [List.foldl_cons, Option.getD_none]
    rw [max_eq_left he, max_self]
    exact fold_js_aux t e.requested he

theorem fold_js_some (t : List Item) (m : Int) :
    ∃ k, t.foldl (fun acc it => some (max it.requested (acc.getD 0)))
      (some m) = some k := by
  induction t generalizing m with
  | nil => exact ⟨m, rfl⟩
  | cons e t ih => exact ih _

theorem fold_js_none_iff (items : List Item) :
    items.foldl (fun acc it => some (max it.requested (acc.getD 0))) none =
      none ↔ items = [] := by
  cases items with
  | nil => simp
  | cons e t =>
    simp only [List.foldl_cons]
    obtain ⟨k, hk⟩ := fold_js_some t (max e.requested ((none : Option Int).getD 0))
    rw [hk]
    simp

theorem computeExpires_none_iff (l : List TokenGroup) (ttl : Int) :
    computeExpires l ttl = none ↔ allItems l = [] := by
  rw [computeExpires_eq_fold, Option.map_eq_none', fold_js_none_iff]

theorem recordDecision_remove_iff (nt : List TokenGroup) :
    recordDecision nt = .remove ↔ ∃ g, nt = [g] ∧ g.resources = [] := by
  match nt with
  | [] => simp [recordDecision]
  | [g] =>
    by_cases h : g.resources.isEmpty
    · simp [recordDecision, h, List.isEmpty_iff.1 h]
    · rw [recordDecision]
      simp only [if_neg h]
      constructor
      · intro hx
        exact absurd hx (by simp)
      · rintro ⟨g2, hg2, hres⟩
        injection hg2 with h1 h2
        subst h1
        exact absurd (List.isEmpty_iff.2 hres) h
  | g1 :: g2 :: t =>
    simp [recordDecision]

/-! ### Claim theorems -/

/-- C1: the claim says the aggregated `maxRestrictionTtl` is the maximum over
all matched restriction results of `result.ttl ?? acquisitionTtl` and hence
order-independent.  The code instead executes
`maxRestrictionTtl = Math.max(0, ttl)` each iteration, overwriting the
running value, so the last matched restriction wins: with results carrying
`ttl = 5` then `ttl = 3` the aggregate is `3`, and reversing the iteration
order yields `5` — order-dependent and not the maximum.  The code's own doc
comment ("All acquired resources will be tracked for the maximum TTL
indicated by applied restrictions") and the spec's note (b) identify the
intent as the maximum, so this is a code bug. -/
theorem c1_maxRestrictionTtl_last_wins :
    (checkAggregate [] 7
      [("A", ⟨true, 0, some 5, none⟩),
       ("B", ⟨true, 0, some 3, none⟩)]).maxRestrictionTtl = 3 ∧
    (checkAggregate [] 7
      [("B", ⟨true, 0, some 3, none⟩),
       ("A", ⟨true, 0, some 5, none⟩)]).maxRestrictionTtl = 5 ∧
    (3 : Int) ≠ 5 := by
  refine ⟨by decide, by decide, by decide⟩

/-- C2: the claim describes `_createNewTokenizedAcquisition` translating the
position-0 group's convertible items under the write key and retaining the
rest, so that after key rotation an acquire naming the same resource yields
one group under the new key.  The rotation branch as written iterates
`prunedTokenized[0]` — a plain object, which is not iterable — with
`for...of` (and reads a nonexistent `tokenizedId` property and calls
`.entries()` on a plain object), so whenever rotation is required the code
throws a `TypeError` instead: with a record tokenized under stale key `k1`
and current key `k2`, `process` decides to rotate and both
`applyAcquireRequest` and `applyReleaseRequest` fail. -/
theorem c2_rotation_branch_throws :
    (process "k2" "a" [⟨"R", 1, 6, false⟩] staleKeyRecord 6).rotate = true ∧
    applyAcquireRequest tokConcat
        (process "k2" "a" [⟨"R", 1, 6, false⟩] staleKeyRecord 6) 0 =
      .error "TypeError: prunedTokenized[0] is not iterable" ∧
    applyReleaseRequest tokConcat
        (process "k2" "a" [⟨"R", 1, 6, false⟩] staleKeyRecord 6) =
      .error "TypeError: prunedTokenized[0] is not iterable" := by
  refine ⟨by decide, rfl, rfl⟩

/-- C3 counterexample: `expiredRecord` holds one acquisition
(`requested = 0`, record `ttl = 5`); at `now = 10` the item is expired
(`0 + 5 < 10`), so the claim says the group becomes empty and is dropped,
the `tokenized` array is replaced by a single empty group under the current
key, and the remembered previous TTL is reset to `0`.  The code instead
keeps the group with its token key mapping to an empty list and keeps the
previous TTL at `5`: `_pruneTokenized`'s `empty` flag is cleared for every
key of the original `resources` object, regardless of whether the filtered
list is empty. -/
theorem c3_counterexample :
    (process "k1" "a" [] expiredRecord 10).prunedTokenized =
      [⟨"k1", [("t", [])]⟩] ∧
    (process "k1" "a" [] expiredRecord 10).prunedTokenized ≠
      [⟨"k1", []⟩] ∧
    (process "k1" "a" [] expiredRecord 10).previousAcquisitionTtl = 5 ∧
    (5 : Int) ≠ 0 := by
  refine ⟨by decide, by decide, by decide, by decide⟩

/-- C3 as amended: `process` drops every item with
`requested + record.ttl < now` (third conjunct: every surviving item
satisfies the bound); a whole group is dropped exactly when its `resources`
object has no token keys at all — pruning never removes a key, so a group
emptied by pruning is retained with empty lists; and the replacement by a
single empty group under the current key together with the previous-TTL
reset happens exactly when every group of the stored `tokenized` array is
keyless. -/
theorem c3_prune_amended (currentId acquirerId : String)
    (request : List RequestItem) (record : AcquisitionRecord) (now : Int) :
    ((process currentId acquirerId request record now).previousAcquisitionTtl =
      if record.acquisition.tokenized.all (fun g => g.resources.isEmpty) then 0
      else record.acquisition.ttl) ∧
    ((process currentId acquirerId request record now).prunedTokenized =
      if record.acquisition.tokenized.all (fun g => g.resources.isEmpty)
      then [⟨currentId, []⟩]
      else pruneTokenized record.acquisition now) ∧
    ((process currentId acquirerId request record now).prunedTokenized.all
      (fun g => g.resources.all fun p =>
        p.2.all fun it =>
          decide (now ≤ it.requested + record.acquisition.ttl)) = true) := by
  have hE := pruneTokenized_isEmpty_eq record.acquisition now
  refine ⟨?_, ?_, ?_⟩
  · rw [process_previousTtl, hE]
  · rw [process_prunedTokenized, hE]
  · rw [process_prunedTokenized]
    by_cases hb : (pruneTokenized record.acquisition now).isEmpty = true
    · rw [if_pos hb]
      rfl
    · rw [if_neg hb]
      exact pruneTokenized_bound record.acquisition now

/-- C4 counterexample: with `limit = 1`, `duration = 1000ms`, `now = 1500`,
one stored acquisition at `requested = 0` and one request item at
`requested = 1400`, the code computes the window start as
`floor((1500 − 1000) / 1000) · 1000 = 0` (second-level rounding via
`moment(...).unix() * 1000`), counts the stored acquisition, and refuses
with excess 1; under the claim's exact `start = now − window = 500` the
stored acquisition is outside the window and the request is authorized. -/
theorem c4_counterexample :
    (limitOverDuration 1 1000 1500 "R" [("R", [⟨1, 0⟩])]
      [⟨"R", 1, 1400, false⟩]).authorized = false ∧
    (limitOverDurationClaimed 1 1000 1500 "R" [("R", [⟨1, 0⟩])]
      [⟨"R", 1, 1400, false⟩]).authorized = true := by
  refine ⟨by decide, by decide⟩

/-- C4 as amended: `_limitOverDuration` behaves exactly as the claim states
except that the window start is `now − window` rounded down to whole seconds
(`start = floor((now − window)/1000) · 1000`): `total` is the sum of stored
acquisition counts for the restriction's resource with `requested ≥ start`
plus the sum of request counts for that resource with `requested ≥ start`
(future-dated items included), `excess = max(0, total − limit)`,
`authorized ⇔ excess = 0`, and `ttl` is the window in milliseconds. -/
theorem c4_limitOverDuration_amended (limit window now : Int)
    (resource : String) (acquired : List (String × TokenList))
    (request : List RequestItem) :
    (limitOverDuration limit window now resource acquired request).ttl =
      window ∧
    (limitOverDuration limit window now resource acquired request).excess =
      max 0
        (((((objGet acquired resource).getD []).filter fun e =>
              decide ((now - window).fdiv 1000 * 1000 ≤ e.requested)).map
            Item.count).sum +
          ((request.filter fun i =>
              decide (i.resource = resource ∧
                (now - window).fdiv 1000 * 1000 ≤ i.requested)).map
            RequestItem.count).sum - limit) ∧
    ((limitOverDuration limit window now resource acquired
        request).authorized = true ↔
      (limitOverDuration limit window now resource acquired
        request).excess = 0) := by
  refine ⟨rfl, ?_, beq_iff_eq⟩
  show max 0 _ = _
  rw [foldl_add_ite_not, foldl_add_ite]
  have hcongr :
      (request.filter fun i =>
        decide (¬(i.resource ≠ resource ∨
          i.requested < (now - window).fdiv 1000 * 1000))) =
      request.filter fun i =>
        decide (i.resource = resource ∧
          (now - window).fdiv 1000 * 1000 ≤ i.requested) := by
    apply List.filter_congr
    intro i hi
    apply decide_eq_decide.2
    constructor
    · intro hno
      rw [not_or] at hno
      exact ⟨not_not.1 hno.1, not_lt.1 hno.2⟩
    · intro hyes
      rw [not_or]
      exact ⟨not_not.2 hyes.1, not_lt.2 hyes.2⟩
  rw [hcongr]
  ring_nf

/-- C5 counterexample: a matched policy on resource `R` returns
`trackedResources = ["other"]`; the claim says `other` is therefore tracked
and not reported untracked.  The current `_check` never reads the result's
`trackedResources` — it always adds `restriction.resource` — so the
aggregate tracks `R` and reports `other` untracked. -/
theorem c5_counterexample :
    (checkAggregate [⟨"other", 1, 0, false⟩] 9
      [("R", ⟨true, 0, none, some ["other"]⟩)]).untrackedResources =
      ["other"] ∧
    (checkAggregate [⟨"other", 1, 0, false⟩] 9
      [("R", ⟨true, 0, none, some ["other"]⟩)]).trackedResources = ["R"] := by
  refine ⟨by decide, by decide⟩

/-- C5 as amended: the tracked set aggregated by `_check` is exactly the set
of `restriction.resource` of the matched policies — the results'
`trackedResources` fields are ignored — and `untrackedResources` is exactly
the request resources outside that set. -/
theorem c5_tracked_amended (request : List RequestItem) (acquisitionTtl : Int)
    (applied : List (String × RestrictionResult)) (r : String) :
    (r ∈ (checkAggregate request acquisitionTtl applied).trackedResources ↔
      r ∈ applied.map Prod.fst) ∧
    (r ∈ (checkAggregate request acquisitionTtl applied).untrackedResources ↔
      r ∈ request.map RequestItem.resource ∧ r ∉ applied.map Prod.fst) := by
  have htr : ∀ x : String,
      x ∈ (checkAggregate request acquisitionTtl applied).trackedResources ↔
        x ∈ applied.map Prod.fst := by
    intro x
    show x ∈ applied.foldl (fun s p => setAdd s p.1) [] ↔ _
    rw [mem_foldl_setAdd]
    simp
  refine ⟨htr r, ?_⟩
  show r ∈ (request.map fun i => i.resource).filter
      (fun x =>
        !((applied.foldl (fun s p => setAdd s p.1) []).contains x)) ↔ _
  rw [List.mem_filter]
  constructor
  · rintro ⟨hmem, hb⟩
    have hnt : r ∉ applied.foldl (fun s p => setAdd s p.1) [] := by
      simpa using hb
    exact ⟨hmem, fun hin => hnt ((htr r).2 hin)⟩
  · rintro ⟨hmem, hnin⟩
    refine ⟨hmem, ?_⟩
    have hnt : r ∉ applied.foldl (fun s p => setAdd s p.1) [] :=
      fun hc => hnin ((htr r).1 hc)
    simpa using hnt

/-- C6 counterexample: `expiredRecord` holds one acquisition
(`requested = 0`) under record `ttl = 5`; at `now = 10` every stored
acquisition is expired (`0 + 5 < 10`), so by the claim the remembered ttl
resets to `0` and the acquire with `maxRestrictionTtl = 3` stores
`max(0, 3) = 3`.  The code keeps the previous ttl at `5` (the group survives
pruning with its key) and stores `max(5, 3) = 5`. -/
theorem c6_counterexample :
    expiredRecord.acquisition.ttl = 5 ∧
    ((0 : Int) + 5 < 10) ∧
    (applyAcquireRequest tokConcat
        (process "k1" "a" [⟨"R", 1, 9, false⟩] expiredRecord 10) 3).map
      AcquireResult.ttl = .ok 5 ∧
    (5 : Int) ≠ max 0 3 := by
  refine ⟨by decide, by decide, rfl, by decide⟩

/-- C6 as amended: an acquire that writes stores
`ttl = max(previousTtl, maxRestrictionTtl)` where `previousTtl` is the
record's stored ttl except that it is reset to 0 exactly when the record's
`tokenized` groups contain no token keys at all (the synthesized default for
an unknown acquirer); in particular the stored ttl never falls below the
processed previous ttl, when the record has at least one token key the
stored ttl is `max(record.ttl, maxRestrictionTtl) ≥ record.ttl`, and a
release write keeps the ttl unchanged.  A record whose acquisitions have all
expired but whose token keys remain keeps its ttl rather than resetting. -/
theorem c6_ttl_amended (tok : String → String → String)
    (currentId acquirerId : String) (request : List RequestItem)
    (record : AcquisitionRecord) (now maxRestrictionTtl : Int) :
    (∀ res, applyAcquireRequest tok
        (process currentId acquirerId request record now) maxRestrictionTtl =
        .ok res →
      res.ttl = max (process currentId acquirerId request record
          now).previousAcquisitionTtl maxRestrictionTtl ∧
      (process currentId acquirerId request record
          now).previousAcquisitionTtl ≤ res.ttl ∧
      ((record.acquisition.tokenized.all fun g => g.resources.isEmpty) =
          false →
        res.ttl = max record.acquisition.ttl maxRestrictionTtl ∧
        record.acquisition.ttl ≤ res.ttl)) ∧
    (∀ res, applyReleaseRequest tok
        (process currentId acquirerId request record now) = .ok res →
      res.ttl = (process currentId acquirerId request record
        now).previousAcquisitionTtl) := by
  constructor
  · intro res h
    have h1 := (applyAcquireRequest_ok tok _ maxRestrictionTtl res h).1
    refine ⟨h1, by rw [h1]; exact le_max_left .., ?_⟩
    intro hall
    have hp := process_previousTtl currentId acquirerId request record now
    rw [pruneTokenized_isEmpty_eq, hall] at hp
    simp only [Bool.false_eq_true, if_false] at hp
    rw [hp] at h1
    exact ⟨h1, by rw [h1]; exact le_max_left ..⟩
  · intro res h
    exact (applyReleaseRequest_ok tok _ res h).1

/-- C6 witness: a concrete acquire on a live record (`ttl = 5`,
`maxRestrictionTtl = 7`) stores `ttl = max 5 7 = 7`. -/
theorem c6_witness :
    applyAcquireRequest tokConcat
        (process "k1" "a" liveRequest liveRecord 3) 7 =
      .ok liveAcquireResult ∧
    liveAcquireResult.ttl =
      max (process "k1" "a" liveRequest liveRecord
        3).previousAcquisitionTtl 7 :=
  ⟨rfl,
    ((c6_ttl_amended tokConcat "k1" "a" liveRequest liveRecord 3 7).1
      liveAcquireResult rfl).1⟩

/-- C7 counterexample: acquiring with an already-expired request item
(`requested = 2`, new ttl 5, prune time 10) against `expiredRecord` leaves a
single group whose token key maps to an empty list: no item remains and
`expires` is undefined (`none`), yet `_record` keys its delete decision on
`Object.keys(resources).length`, which is 1, so it updates the record
(storing an undefined `expires`) instead of deleting it as the claim
requires. -/
theorem c7_counterexample :
    applyAcquireRequest tokConcat
        (process "k1" "a" [⟨"R", 1, 2, false⟩] expiredRecord 10) 0 =
      .ok ⟨[⟨"k1", [("t", [])]⟩], none, 5⟩ ∧
    recordDecision [⟨"k1", [("t", [])]⟩] = .update ∧
    RecordAction.update ≠ RecordAction.remove := by
  refine ⟨rfl, by decide, by decide⟩

/-- C7 as amended: when every remaining item has a nonnegative timestamp the
returned `expires` is `max(requested) + ttl` (both for `applyAcquireRequest`
and `applyReleaseRequest`, whose `expires` is `_computeExpires` of their
result), and `expires` is undefined exactly when no item remains; but the
engine deletes the record exactly when `newTokenized` is a single group
whose `resources` object has no token keys — a group retaining keys with
empty lists is written, with undefined `expires`, despite holding no
items. -/
theorem c7_expires_amended (newTokenized : List TokenGroup) (ttl : Int)
    (hreq : ((allItems newTokenized).all fun it =>
      decide (0 ≤ it.requested)) = true) :
    computeExpires newTokenized ttl =
      (specMaxRequested newTokenized).map (· + ttl) ∧
    (computeExpires newTokenized ttl = none ↔ allItems newTokenized = []) ∧
    (recordDecision newTokenized = .remove ↔
      ∃ g, newTokenized = [g] ∧ g.resources = []) ∧
    (∀ tok st mrt res, applyAcquireRequest tok st mrt = .ok res →
      res.expires = computeExpires res.newTokenized res.ttl) ∧
    (∀ tok st res, applyReleaseRequest tok st = .ok res →
      res.expires = computeExpires res.newTokenized res.ttl) := by
  refine ⟨?_, computeExpires_none_iff .., recordDecision_remove_iff ..,
    fun tok st mrt res h => (applyAcquireRequest_ok tok st mrt res h).2,
    fun tok st res h => (applyReleaseRequest_ok tok st res h).2⟩
  rw [computeExpires_eq_fold]
  unfold specMaxRequested
  congr 1
  apply fold_js_eq_spec
  intro it hit
  have hx := List.all_eq_true.1 hreq it hit
  simpa using hx

/-- C7 witness: one item at `requested = 3` with `ttl = 5` gives
`expires = 8 = max(requested) + ttl`. -/
theorem c7_witness :
    ((allItems [⟨"k1", [("t", [⟨1, 3⟩])]⟩]).all fun it =>
      decide (0 ≤ it.requested)) = true ∧
    computeExpires [⟨"k1", [("t", [⟨1, 3⟩])]⟩] 5 =
      (specMaxRequested [⟨"k1", [("t", [⟨1, 3⟩])]⟩]).map (· + 5) :=
  ⟨by decide, (c7_expires_amended [⟨"k1", [("t", [⟨1, 3⟩])]⟩] 5 (by decide)).1⟩

/-- C8 counterexample: a release request naming the same resource twice,
each time with a shortfall (`emptyRecord` holds nothing), crashes instead of
reporting the accumulated excess: the first item stores the number 5 in the
excess map, and the second item's merge branch executes
`excess.count += toRemove` on that primitive number, a `TypeError` in strict
mode. -/
theorem c8_counterexample :
    applyReleaseRequest tokConcat
        (process "k1" "a" doubleReleaseRequest emptyRecord 0) =
      .error "TypeError: Cannot create property count on a number" := rfl

/-- C8 as amended: for a request item whose resource has no previously
recorded shortfall (hypothesis `hnone`), against a stored list that is
sorted ascending with positive counts, `releaseItem` — the per-item loop
body of `applyReleaseRequest` — consumes `count` units from the
earliest-requested item (or the latest, when `latest = true`), dropping a
fully consumed item and decrementing a partially consumed one (the
`TailShape` clauses), reports the shortfall `max(0, count − held)` as the
resource's excess entry exactly when it is positive, deletes the token key
exactly when the list empties, leaves every other key unchanged, and keeps
the surviving list sorted ascending with positive counts; the consumed
total is `count − shortfall`. -/
theorem c8_release_amended (tok : String → String → String)
    (newTokenizerId : String) (entry : TokenGroup)
    (excessMap : List (String × Int)) (item : RequestItem)
    (hc : 0 ≤ item.count)
    (hpos : PosCounts ((objGet entry.resources
      (tok newTokenizerId item.resource)).getD []))
    (hsort : SortedAsc ((objGet entry.resources
      (tok newTokenizerId item.resource)).getD []))
    (hnone : objGet excessMap item.resource = none) :
    releaseItemSpec tok newTokenizerId entry excessMap item := by
  unfold releaseItemSpec
  dsimp only
  set tid := tok newTokenizerId item.resource with htid
  set list := (objGet entry.resources tid).getD [] with hlist
  set cd := consumeDirected item.latest list item.count with hcd
  set shortfall := max 0 (item.count - sumCounts list) with hsf
  have hrem : cd.2 = shortfall := by
    rw [hcd, hsf]
    exact consumeDirected_rem item.latest list item.count hc hpos
  refine ⟨(if cd.1.isEmpty then
        { entry with resources := objDelete entry.resources tid }
      else { entry with resources := objSet entry.resources tid cd.1 }),
    (if 0 < shortfall then objSet excessMap item.resource shortfall
     else excessMap), ?_, rfl, ?_, ?_, ?_, ?_, ?_, ?_, ?_, ?_⟩
  · unfold releaseItem
    dsimp only
    rw [← htid, ← hlist, ← hcd]
    by_cases hz : 0 < cd.2
    · rw [if_pos hz, hnone]
      have hz2 : 0 < shortfall := hrem ▸ hz
      rw [if_pos hz2, hrem]
    · rw [if_neg hz]
      have hz2 : ¬0 < shortfall := hrem ▸ hz
      rw [if_neg hz2]
  · split <;> rfl
  · by_cases hE : cd.1.isEmpty = true
    · rw [if_pos hE, if_pos hE]
      exact objGet_objDelete_self ..
    · rw [if_neg hE, if_neg hE]
      exact objGet_objSet_self ..
  · intro k hk
    by_cases hE : cd.1.isEmpty = true
    · rw [if_pos hE]
      exact objGet_objDelete_ne entry.resources tid k hk
    · rw [if_neg hE]
      exact objGet_objSet_ne entry.resources tid k cd.1 hk
  · rw [← hrem, hcd]
    exact consumeDirected_sum item.latest list item.count hc hpos
  · rw [hcd]
    exact consumeDirected_pos item.latest list item.count hc hpos
  · rw [hcd]
    exact consumeDirected_sorted item.latest list item.count hc hpos hsort
  · intro hlat
    rw [hcd]
    exact (consumeDirected_shape item.latest list item.count hc hpos).1 hlat
  · intro hlat
    rw [hcd]
    exact (consumeDirected_shape item.latest list item.count hc hpos).2 hlat

/-- C8 witness: releasing 4 units against stored counts 2 and 3 (requested 1
and 5) drops the first item, decrements the second to 1, and reports no
excess. -/
theorem c8_witness :
    (0 : Int) ≤ releaseRequestItem.count ∧
    PosCounts ((objGet releaseEntry.resources
      (tokId "k1" releaseRequestItem.resource)).getD []) ∧
    SortedAsc ((objGet releaseEntry.resources
      (tokId "k1" releaseRequestItem.resource)).getD []) ∧
    objGet ([] : List (String × Int)) releaseRequestItem.resource = none ∧
    releaseItemSpec tokId "k1" releaseEntry [] releaseRequestItem :=
  ⟨by decide, by decide, by decide, rfl,
    c8_release_amended tokId "k1" releaseEntry [] releaseRequestItem
      (by decide) (by decide) (by decide) rfl⟩

/-- C9 counterexample: the validation is `assert.string(acquirerId,
'acquirerId')`, which only checks `typeof acquirerId === 'string'`; an
empty-string acquirer id passes it, and `check`, `acquire` and `release` all
proceed normally instead of raising the input-validation error the claim
requires for values that are not non-empty strings. -/
theorem c9_counterexample :
    checkOp tokConcat "k" 0 emptyStore (.str "") [] 0 [] =
      .ok (⟨true, [], []⟩, emptyStore) ∧
    acquireOp tokConcat "k" 0 emptyStore (.str "") [] 0 [] false =
      .ok (⟨true, [], []⟩, emptyStore) ∧
    releaseOp tokConcat "k" 0 emptyStore (.str "") [] =
      .ok (⟨true, [], none⟩, emptyStore) :=
  ⟨rfl, rfl, rfl⟩

/-- C9 as amended: when `acquirerId` is missing or not a string, `check`,
`acquire` and `release` all fail with the input-validation error
"acquirerId (string) is required", and they do so before touching any state:
the result is the same for every store.  (An empty string, however, passes
the validation.) -/
theorem c9_validation_amended (tok : String → String → String)
    (currentId : String) (now : Int) (store : Store)
    (request : List RequestItem) (acquisitionTtl : Int)
    (zones : List String) (forceAcquisition : Bool) :
    checkOp tok currentId now store .missing request acquisitionTtl zones =
      .error acquirerIdError ∧
    checkOp tok currentId now store .nonString request acquisitionTtl zones =
      .error acquirerIdError ∧
    acquireOp tok currentId now store .missing request acquisitionTtl zones
      forceAcquisition = .error acquirerIdError ∧
    acquireOp tok currentId now store .nonString request acquisitionTtl zones
      forceAcquisition = .error acquirerIdError ∧
    releaseOp tok currentId now store .missing request =
      .error acquirerIdError ∧
    releaseOp tok currentId now store .nonString request =
      .error acquirerIdError :=
  ⟨rfl, rfl, rfl, rfl, rfl, rfl⟩

/-- C10: `check` never mutates durable state.  Its call graph —
`_getAcquisitionRecord` (a `findOne`, synthesizing the default record only
in memory), `ResourceTokenizer.process` (pure computation plus tokenizer
reads), `matchRequest` (a `find`) and the policy applications — contains no
datastore write, so the store after a successful `check` is exactly the
store before it (and the validation-error path touches nothing either). -/
theorem c10_check_frame (tok : String → String → String)
    (currentId : String) (now : Int) (store : Store) (acquirerId : JsInput)
    (request : List RequestItem) (acquisitionTtl : Int)
    (zones : List String) (out : CheckOutput) (store1 : Store)
    (h : checkOp tok currentId now store acquirerId request acquisitionTtl
      zones = .ok (out, store1)) : store1 = store := by
  cases acquirerId with
  | str aid =>
    unfold checkOp at h
    injection h with h1
    have h2 := congrArg Prod.snd h1
    exact h2.symm
  | missing => exact Except.noConfusion h
  | nonString => exact Except.noConfusion h

/-- C10 witness: a concrete `check` on the empty store returns the store
unchanged. -/
theorem c10_witness :
    checkOp tokConcat "k" 0 emptyStore (.str "x") [] 0 [] =
      .ok (⟨true, [], []⟩, emptyStore) ∧
    emptyStore = emptyStore :=
  ⟨rfl,
    c10_check_frame tokConcat "k" 0 emptyStore (.str "x") [] 0 []
      ⟨true, [], []⟩ emptyStore rfl⟩

end RR
